import Mathlib

/-!
# Verification of `src/contrib/data/batch_dataset.ts`

A shallow embedding of the batching module of the dataset pipeline:
`BatchDataset`, `makeDatasetBatch`, `batchConcat` and `shapeAndValues`,
together with a model of the window-forming `DataStream.batch` combinator
(whose implementation lives outside the provided source and is therefore
modelled from the specification).

Modelling conventions:
* JavaScript numbers that flow through this module are only ever moved
  around, never operated on arithmetically, so they are modelled as `Int`.
  The `Float32Array` writes convert values to 32-bit floats; on this model
  domain the conversion is value-preserving (the specification's
  "up to float32 representation").
* The one non-numeric value a `Float32Array` write can receive here is the
  JavaScript `undefined` produced by reading an absent object key (and, on
  one unreachable-by-spec path, a string); `JSNum.nan` models the NaN a
  non-numeric write stores.  String-to-number coercion is modelled for
  integer literals via `String.toInt?`.
* A `DatasetElement` (a JavaScript object) is an association list whose
  keys are pairwise distinct in any value that actually arises at runtime
  (JavaScript objects cannot hold duplicate keys).
* Exceptions are modelled with `Except`; a statement that runs after a
  possibly-throwing statement in the source runs here only on the `.ok`
  branch.
-/

namespace BatchDatasetModel

/-- A runtime value stored in a field of a `DatasetElement`
(`ElementArray | string` in the source, i.e. `number | number[] | Tensor
| string`), extended with the JavaScript `undefined` that reading an
absent key produces. A `Tensor` carries its shape and its flat backing
buffer (`dataSync()`). -/
inductive ElementValue where
  | num (x : Int)
  | arr (xs : List Int)
  | tensor (shape : List Nat) (data : List Int)
  | str (s : String)
  | undefined
deriving DecidableEq, Repr

/-- An entry of a `Float32Array`: an ordinary number (exactly representable
on the integer model domain) or NaN. -/
inductive JSNum where
  | num (x : Int)
  | nan
deriving DecidableEq, Repr

/-- JavaScript `ToNumber` as applied by `Float32Array.prototype.set` to each
source entry, restricted to the values that can reach the buffer in this
module. Integer-literal strings are parsed; `undefined` and unparsable
strings become NaN. The `arr`/`tensor` branches are unreachable from
`shapeAndValues` (kept total for executability). -/
def toJSNum : ElementValue → JSNum
  | .num x => .num x
  | .str s => match s.toInt? with
    | some n => .num n
    | none => .nan
  | .undefined => .nan
  | .arr _ => .nan
  | .tensor _ _ => .nan

/-- The errors this module can raise. -/
inductive BatchError where
  /-- `Batching failed to get a '<key>' value for each element.` -/
  | batchingFailed (key : String)
  /-- `Elements must have the same shape to be batched` -/
  | shapeMismatch
  /-- The JavaScript `TypeError` that `Object.keys(elements[0])` raises when
  the window is empty (`elements[0]` is `undefined`). Windows are non-empty
  by construction, so this is a model-boundary marker. -/
  | typeError
deriving DecidableEq, Repr

/-- `shapeAndValues` (source lines 123–132): normalize a value to a
`(shape, flatValues)` pair. A `Tensor` contributes its own shape and
backing buffer, a numeric array `xs` the shape `[xs.length]` and the array
itself, and anything else (a scalar at the intended types) the empty shape
and a fresh one-element array holding the value. Buffer entries are kept
as raw runtime values; numeric entries are injected via `ElementValue.num`. -/
def shapeAndValues : ElementValue → List Nat × List ElementValue
  | .tensor shape data => (shape, data.map ElementValue.num)
  | .arr xs => ([xs.length], xs.map ElementValue.num)
  | v => ([], [v])

/-- `Float32Array.prototype.set(src, off)` on a buffer modelled as a list:
overwrite `src.length` entries starting at `off`, converting each source
entry with `ToNumber`. Faithful whenever `off + src.length ≤ buf.length`
(otherwise the source throws a `RangeError`; no claim exercises that
corner, and all theorems below stay within bounds). -/
def bufSet (buf : List JSNum) (src : List ElementValue) (off : Nat) : List JSNum :=
  buf.take off ++ src.map toJSNum ++ buf.drop (off + src.length)

/-- The validating copy loop of `batchConcat` (source lines 110–118): for
each value, compare its shape with the element shape taken from the first
value; on mismatch throw, otherwise copy its flat values into the output
buffer at the running offset and advance the offset by their length. -/
def batchConcatLoop (elementShape : List Nat) :
    List ElementValue → List JSNum → Nat → Except BatchError (List JSNum)
  | [], buf, _ => .ok buf
  | a :: rest, buf, off =>
    let sv := shapeAndValues a
    if sv.1 = elementShape then
      batchConcatLoop elementShape rest (bufSet buf sv.2 off) (off + sv.2.length)
    else
      .error .shapeMismatch

/-- A value of the produced batch: sharing the source's
`BatchArray | string[]` shape. The string branch of `makeDatasetBatch`
stores the raw rotated column (typed `string[]` in the source but not
checked, so entries are arbitrary runtime values); the numeric branch
stores the `Tensor` built by `batchConcat`. -/
inductive BatchValue where
  | strings (column : List ElementValue)
  | tensor (shape : List Nat) (values : List JSNum)
deriving DecidableEq, Repr

/-- `batchConcat` (source lines 102–121): take the element shape from the
first value, allocate a zero-filled `Float32Array` of size
`(arrays.length :: elementShape).prod` (the source's
`batchShape.reduce((x, y) => x * y)` over the non-empty `batchShape`),
run the validating copy loop, and wrap the result as a tensor of shape
`arrays.length :: elementShape` (`Tensor.make`). An empty `arrays` reads
`arrays[0]` as `undefined`, as in the source. -/
def batchConcat (arrays : List ElementValue) : Except BatchError BatchValue :=
  let elementShape := (shapeAndValues (arrays.headD .undefined)).1
  let batchShape := arrays.length :: elementShape
  let resultVals := List.replicate batchShape.prod (JSNum.num 0)
  (batchConcatLoop elementShape arrays resultVals 0).map
    (fun buf => BatchValue.tensor batchShape buf)

/-- A `DatasetElement`: a JavaScript object mapping field names to values,
modelled as an association list (key-distinct at runtime). -/
abbrev DatasetElement : Type := List (String × ElementValue)

/-- A produced `DatasetBatch`, in template-key order. -/
abbrev DatasetBatch : Type := List (String × BatchValue)

/-- Reading `e[key]` on a JavaScript object: the stored value, or
`undefined` when the key is absent. -/
def getKey (e : DatasetElement) (k : String) : ElementValue :=
  match e.find? (fun kv => kv.1 = k) with
  | some kv => kv.2
  | none => .undefined

/-- `Object.keys e`, in insertion order. -/
def keysOf (e : DatasetElement) : List String :=
  e.map Prod.fst

/-- The rotated column for key `k` (source lines 69–78): the double
`forEach` pushes `e[key]` once per element per templated key, so the
column for `k` is the ordered list of `e[k]` across the window. -/
def rotatedCol (elements : List DatasetElement) (k : String) : List ElementValue :=
  elements.map (fun e => getKey e k)

/-- Whether `typeof v === 'string'`. -/
def isStr : ElementValue → Bool
  | .str _ => true
  | _ => false

/-- The result-building loop of `makeDatasetBatch` (source lines 81–92),
processing the template keys in order: run the sanity check on the
column's length, pass the column through untouched when its first entry is
a string, and otherwise hand it to `batchConcat`; the first thrown error
aborts the remaining keys. -/
def buildResult (elements : List DatasetElement) :
    List String → Except BatchError DatasetBatch
  | [] => .ok []
  | k :: ks =>
    let col := rotatedCol elements k
    if col.length ≠ elements.length then
      .error (.batchingFailed k)
    else if isStr (col.headD .undefined) then
      (buildResult elements ks).map (fun r => (k, BatchValue.strings col) :: r)
    else
      match batchConcat col with
      | .error e => .error e
      | .ok bv => (buildResult elements ks).map (fun r => (k, bv) :: r)

/-- `makeDatasetBatch` without the disposal side effect (source lines
59–92): take the first element as the template, rotate, and build the
per-key batch values. An empty window would make `Object.keys(undefined)`
throw a `TypeError` in the source. -/
def makeDatasetBatchCore : List DatasetElement → Except BatchError DatasetBatch
  | [] => .error .typeError
  | e0 :: rest => buildResult (e0 :: rest) (keysOf e0)

/-- `makeDatasetBatch` with its disposal side effect made observable
(source lines 59–96): `elements.forEach(dispose)` is the statement after
the result-building loop, so it runs — disposing each element once, in
order, recorded here as the list of disposed indices — only when no
earlier statement threw. -/
def makeDatasetBatch (elements : List DatasetElement) :
    Except BatchError DatasetBatch × List Nat :=
  match makeDatasetBatchCore elements with
  | .ok r => (.ok r, List.range elements.length)
  | .error e => (.error e, [])

/-- `BatchDataset` (source lines 40–54), with the fields its constructor
stores. The upstream `Dataset` is irrelevant to the claims and elided;
`getStream` is modelled below over an explicit record list. -/
structure BatchDataset where
  batchSize : Int
  smallLastBatch : Bool
deriving DecidableEq, Repr

/-- The `BatchDataset` constructor (source lines 41–43): it stores its
arguments and performs no validation, so it cannot fail; it is embedded
into `Except` to make the (absent) failure path expressible. -/
def BatchDataset.make (batchSize : Int) (smallLastBatch : Bool) :
    Except BatchError BatchDataset :=
  .ok ⟨batchSize, smallLastBatch⟩

/-- The constructor with its default: `smallLastBatch = true` when the
argument is omitted (source line 43). -/
def BatchDataset.makeDefault (batchSize : Int) : Except BatchError BatchDataset :=
  BatchDataset.make batchSize true

/-- Modelled from the spec: the window-forming part of
`DataStream.batch(batchSize, smallLastBatch)` invoked at source line 51 is
not part of the provided source (only its call site is). Per spec §4.4 the
stage buffers records from the upstream sequence into consecutive windows
of `batchSize` records until the source is exhausted; `chunks` yields
those consecutive windows, the trailing one possibly smaller. -/
def chunks (B : Nat) : List α → List (List α)
  | [] => []
  | x :: xs =>
    if _h : B = 0 then []
    else (x :: xs).take B :: chunks B ((x :: xs).drop B)
termination_by xs => xs.length
decreasing_by
  simp only [List.length_drop, List.length_cons]
  omega

/-- Modelled from the spec: the emitted windows of the batching stage.
Per spec §4.4, on upstream exhaustion with a non-empty partial buffer the
final smaller window is emitted iff `smallLastBatch` is true; with
`smallLastBatch = false` the partial window is discarded silently, so only
full windows are emitted. -/
def batchWindows (B : Nat) (smallLastBatch : Bool) (xs : List α) : List (List α) :=
  let cs := chunks B xs
  if smallLastBatch then cs else cs.filter (fun c => c.length == B)

/-- `BatchDataset.getStream` (source lines 49–53) over an explicit list of
upstream records: form the windows, then map `makeDatasetBatch` over them
(`batchesAsArrays.map(makeDatasetBatch)`). -/
def getStreamModel (B : Nat) (smallLastBatch : Bool)
    (records : List DatasetElement) : List (Except BatchError DatasetBatch) :=
  (batchWindows B smallLastBatch records).map makeDatasetBatchCore

/-- Whether a value is one of the numeric variants
(`Scalar`/`NumericArray`/`Tensor` in the specification's terms). -/
def isNumeric : ElementValue → Bool
  | .num _ => true
  | .arr _ => true
  | .tensor _ _ => true
  | _ => false

/-- Specification-side reference: the flat numeric values a numeric record
value contributes, as `Float32Array` entries (the round-trip target of the
batch buffer). -/
def flatNums : ElementValue → List JSNum
  | .num x => [.num x]
  | .arr xs => xs.map JSNum.num
  | .tensor _ data => data.map JSNum.num
  | _ => []

/-- A pointer-level value for the reference-identity analysis of
`shapeAndValues`: a scalar, or a reference into a store of numeric arrays
(JavaScript arrays are heap objects compared by identity). -/
inductive HValue where
  | hnum (x : Int)
  | harr (r : Nat)
deriving DecidableEq, Repr

/-- `shapeAndValues` at the reference level, for its scalar and array
branches (source lines 127–131): the array branch returns
`[[array.length], array]` — the argument array object itself, allocating
nothing — while the scalar branch allocates a fresh one-element array
`[array]`. The result is the (possibly extended) store, the shape, and a
reference to the returned flat buffer. -/
def shapeAndValuesRef (store : List (List Int)) :
    HValue → List (List Int) × List Nat × Nat
  | .harr r => (store, [(store.getD r []).length], r)
  | .hnum x => (store ++ [[x]], [], store.length)

theorem rotatedCol_length (elements : List DatasetElement) (k : String) :
    (rotatedCol elements k).length = elements.length := by
  simp [rotatedCol]

theorem batchConcatLoop_append (es : List Nat) (arrays : List ElementValue) :
    ∀ (A R : List JSNum),
    (∀ a ∈ arrays, (shapeAndValues a).1 = es) →
    (∀ a ∈ arrays, (shapeAndValues a).2.length = es.prod) →
    R.length = arrays.length * es.prod →
    batchConcatLoop es arrays (A ++ R) A.length =
      .ok (A ++ (arrays.map (fun a => (shapeAndValues a).2.map toJSNum)).flatten) := by
  induction arrays with
  | nil =>
    intro A R _ _ hR
    have : R = [] := List.eq_nil_of_length_eq_zero (by simpa using hR)
    subst this
    simp [batchConcatLoop]
  | cons a rest ih =>
    intro A R hsh hlen hR
    have ha : (shapeAndValues a).1 = es := hsh a (by simp)
    have hlena : (shapeAndValues a).2.length = es.prod := hlen a (by simp)
    have hbuf : bufSet (A ++ R) (shapeAndValues a).2 A.length =
        (A ++ (shapeAndValues a).2.map toJSNum) ++ R.drop es.prod := by
      unfold bufSet
      rw [List.take_left, hlena, List.drop_append, List.append_assoc]
    have hRd : (R.drop es.prod).length = rest.length * es.prod := by
      rw [List.length_drop, hR, List.length_cons, Nat.succ_mul, Nat.add_sub_cancel]
    have hoff : A.length + (shapeAndValues a).2.length =
        (A ++ (shapeAndValues a).2.map toJSNum).length := by
      rw [List.length_append, List.length_map]
    simp only [batchConcatLoop, ha, if_pos]
    rw [hbuf, hoff,
      ih (A ++ (shapeAndValues a).2.map toJSNum) (R.drop es.prod)
        (fun x hx => hsh x (by simp [hx])) (fun x hx => hlen x (by simp [hx])) hRd]
    simp [List.flatten_cons, List.append_assoc]

theorem batchConcatLoop_mismatch (es : List Nat) (arrays : List ElementValue) :
    ∀ (buf : List JSNum) (off : Nat),
    (∃ a ∈ arrays, (shapeAndValues a).1 ≠ es) →
    batchConcatLoop es arrays buf off = .error .shapeMismatch := by
  induction arrays with
  | nil =>
    rintro buf off ⟨a, ha, _⟩
    simp at ha
  | cons a rest ih =>
    rintro buf off ⟨b, hb, hbs⟩
    by_cases hcond : (shapeAndValues a).1 = es
    · simp only [batchConcatLoop, hcond, if_pos]
      apply ih
      rcases List.mem_cons.mp hb with h | h
      · exact absurd hcond (h ▸ hbs)
      · exact ⟨b, h, hbs⟩
    · simp [batchConcatLoop, hcond]

theorem batchConcatLoop_error_eq (es : List Nat) (arrays : List ElementValue) :
    ∀ (buf : List JSNum) (off : Nat) (e : BatchError),
    batchConcatLoop es arrays buf off = .error e → e = .shapeMismatch := by
  induction arrays with
  | nil =>
    intro buf off e h
    simp [batchConcatLoop] at h
  | cons a rest ih =>
    intro buf off e h
    by_cases hcond : (shapeAndValues a).1 = es
    · simp only [batchConcatLoop, hcond, if_pos] at h
      exact ih _ _ _ h
    · simp [batchConcatLoop, hcond] at h
      exact h.symm

theorem batchConcat_uniform (arrays : List ElementValue) (es : List Nat)
    (hne : arrays ≠ [])
    (hsh : ∀ a ∈ arrays, (shapeAndValues a).1 = es)
    (hwf : ∀ a ∈ arrays, (shapeAndValues a).2.length = es.prod) :
    batchConcat arrays =
      .ok (.tensor (arrays.length :: es)
        ((arrays.map (fun a => (shapeAndValues a).2.map toJSNum)).flatten)) := by
  have hhead : (shapeAndValues (arrays.headD .undefined)).1 = es := by
    cases arrays with
    | nil => exact absurd rfl hne
    | cons a rest => exact hsh a (by simp)
  have hrep : (List.replicate ((arrays.length ::
      (shapeAndValues (arrays.headD .undefined)).1).prod) (JSNum.num 0)).length =
      arrays.length * es.prod := by
    rw [List.length_replicate, List.prod_cons, hhead]
  have hloop := batchConcatLoop_append es arrays []
    (List.replicate ((arrays.length ::
      (shapeAndValues (arrays.headD .undefined)).1).prod) (JSNum.num 0))
    hsh hwf (by simpa using hrep)
  simp only [List.nil_append, List.length_nil] at hloop
  simp only [batchConcat, hhead] at hloop ⊢
  rw [hloop]
  rfl

theorem batchConcat_error_eq (arrays : List ElementValue) (e : BatchError)
    (h : batchConcat arrays = .error e) : e = .shapeMismatch := by
  simp only [batchConcat] at h
  cases hc : batchConcatLoop (shapeAndValues (arrays.headD .undefined)).1 arrays
      (List.replicate ((arrays.length ::
        (shapeAndValues (arrays.headD .undefined)).1).prod) (JSNum.num 0)) 0 with
  | ok buf => rw [hc] at h; simp [Except.map] at h
  | error e2 =>
    rw [hc] at h
    simp [Except.map] at h
    exact h ▸ batchConcatLoop_error_eq _ _ _ _ _ hc

theorem flatten_slice_eq (p : Nat) (l : List (List JSNum)) :
    (∀ x ∈ l, x.length = p) →
    ∀ (i : Nat) (hi : i < l.length),
    ((l.flatten.drop (i * p)).take p) = l.get ⟨i, hi⟩ := by
  induction l with
  | nil =>
    intro _ i hi
    exact absurd hi (by simp)
  | cons x xs ih =>
    intro h i hi
    cases i with
    | zero =>
      simp only [Nat.zero_mul, List.drop_zero, List.flatten_cons, List.get]
      rw [← h x (by simp), List.take_left]
    | succ i =>
      have hx : x.length = p := h x (by simp)
      have harith : (i + 1) * p = x.length + i * p := by
        rw [hx, Nat.succ_mul, Nat.add_comm]
      simp only [List.flatten_cons, List.get]
      rw [harith, List.drop_append]
      exact ih (fun y hy => h y (by simp [hy])) i (by simpa using hi)

theorem getKey_cons (kv : String × ElementValue) (e : DatasetElement) (k : String) :
    getKey (kv :: e) k = if kv.1 = k then kv.2 else getKey e k := by
  by_cases h : kv.1 = k
  · simp [getKey, List.find?_cons_of_pos, h]
  · simp [getKey, List.find?_cons_of_neg, h]

/-- Backfilling a record's missing templated keys with the JavaScript
`undefined` that reading them would produce anyway. Used to show the code
treats a record with missing keys exactly like one whose missing keys hold
`undefined`. -/
def fillMissing (tmpl : List String) (e : DatasetElement) : DatasetElement :=
  e ++ (tmpl.filter (fun k => !(e.any (fun kv => kv.1 == k)))).map
    (fun k => (k, ElementValue.undefined))

/-- Dropping the fields of a record that are not in the template's key set.
Used to show non-templated fields are silently ignored. -/
def restrictToTemplate (tmpl : List String) (e : DatasetElement) : DatasetElement :=
  e.filter (fun kv => tmpl.contains kv.1)

theorem getKey_fillMissing (tmpl : List String) (e : DatasetElement) (k : String) :
    getKey (fillMissing tmpl e) k = getKey e k := by
  unfold getKey fillMissing
  rw [List.find?_append]
  cases h : e.find? (fun kv => kv.1 = k) with
  | some kv => simp
  | none =>
    rw [Option.none_or]
    cases h2 : (((tmpl.filter (fun k => !(e.any (fun kv => kv.1 == k)))).map
        (fun k => (k, ElementValue.undefined))).find? (fun kv => decide (kv.1 = k))) with
    | none => simp
    | some kv =>
      have hmem := List.mem_of_find?_eq_some h2
      rcases List.mem_map.mp hmem with ⟨k2, _, hk2⟩
      simp [← hk2]

theorem fillMissing_keysOf_self (e : DatasetElement) :
    fillMissing (keysOf e) e = e := by
  unfold fillMissing
  have hnil : (keysOf e).filter (fun k => !(e.any (fun kv => kv.1 == k))) = [] := by
    rw [List.filter_eq_nil_iff]
    intro k hk
    unfold keysOf at hk
    rcases List.mem_map.mp hk with ⟨kv, hkv, hfst⟩
    have hany : e.any (fun kv => kv.1 == k) = true :=
      List.any_eq_true.mpr ⟨kv, hkv, by simp [hfst]⟩
    simp [hany]
  rw [hnil]
  simp

theorem getKey_restrictToTemplate (tmpl : List String) (k : String)
    (hk : tmpl.contains k = true) (e : DatasetElement) :
    getKey (restrictToTemplate tmpl e) k = getKey e k := by
  induction e with
  | nil => rfl
  | cons kv e ih =>
    unfold restrictToTemplate at ih ⊢
    by_cases h : kv.1 = k
    · have hkeep : tmpl.contains kv.1 = true := h ▸ hk
      rw [List.filter_cons_of_pos (by simpa using hkeep)]
      simp [getKey_cons, h]
    · cases hp : tmpl.contains kv.1 with
      | true =>
        rw [List.filter_cons_of_pos (by simpa using hp)]
        simp only [getKey_cons, if_neg h]
        simpa using ih
      | false =>
        rw [List.filter_cons_of_neg (by simpa using hp)]
        simp only [getKey_cons, if_neg h]
        simpa using ih

theorem restrictToTemplate_keysOf_self (e : DatasetElement) :
    restrictToTemplate (keysOf e) e = e := by
  unfold restrictToTemplate
  rw [List.filter_eq_self]
  intro kv hkv
  simp only [List.contains_eq_any_beq, List.any_eq_true]
  exact ⟨kv.1, List.mem_map.mpr ⟨kv, hkv, rfl⟩, by simp⟩

theorem buildResult_congr (es1 es2 : List DatasetElement)
    (hlen : es1.length = es2.length) :
    ∀ ks : List String, (∀ k ∈ ks, rotatedCol es1 k = rotatedCol es2 k) →
    buildResult es1 ks = buildResult es2 ks := by
  intro ks
  induction ks with
  | nil => intro _; rfl
  | cons k0 ks ih =>
    intro h
    simp only [buildResult]
    rw [h k0 (by simp), hlen, ih (fun k hk => h k (by simp [hk]))]

theorem buildResult_ne_batchingFailed (elements : List DatasetElement) (k : String) :
    ∀ ks : List String, buildResult elements ks ≠ .error (.batchingFailed k) := by
  intro ks
  induction ks with
  | nil => simp [buildResult]
  | cons k0 ks ih =>
    simp only [buildResult]
    rw [if_neg (by simp [rotatedCol_length])]
    by_cases hs : isStr ((rotatedCol elements k0).headD .undefined) = true
    · rw [if_pos hs]
      cases hb : buildResult elements ks with
      | ok r => simp [Except.map]
      | error e => simp [Except.map]; intro hcontra; exact ih (hcontra ▸ hb)
    · rw [if_neg hs]
      cases hc : batchConcat (rotatedCol elements k0) with
      | ok bv =>
        cases hb : buildResult elements ks with
        | ok r => simp [Except.map]
        | error e => simp [Except.map]; intro hcontra; exact ih (hcontra ▸ hb)
      | error e =>
        have := batchConcat_error_eq _ _ hc
        subst this
        simp

theorem buildResult_keys (elements : List DatasetElement) :
    ∀ (ks : List String) (r : DatasetBatch),
    buildResult elements ks = .ok r → r.map Prod.fst = ks := by
  intro ks
  induction ks with
  | nil =>
    intro r h
    simp only [buildResult] at h
    cases h
    rfl
  | cons k0 ks ih =>
    intro r h
    simp only [buildResult] at h
    rw [if_neg (by simp [rotatedCol_length])] at h
    by_cases hs : isStr ((rotatedCol elements k0).headD .undefined) = true
    · rw [if_pos hs] at h
      cases hb : buildResult elements ks with
      | ok r0 =>
        rw [hb] at h
        simp only [Except.map] at h
        cases h
        simp [ih r0 hb]
      | error e => rw [hb] at h; simp [Except.map] at h
    · rw [if_neg hs] at h
      cases hc : batchConcat (rotatedCol elements k0) with
      | ok bv =>
        rw [hc] at h
        cases hb : buildResult elements ks with
        | ok r0 =>
          rw [hb] at h
          simp only [Except.map] at h
          cases h
          simp [ih r0 hb]
        | error e => rw [hb] at h; simp [Except.map] at h
      | error e => rw [hc] at h; simp at h

theorem buildResult_string_cols (elements : List DatasetElement) :
    ∀ ks : List String,
    (∀ k ∈ ks, isStr ((rotatedCol elements k).headD .undefined) = true) →
    buildResult elements ks =
      .ok (ks.map (fun k => (k, BatchValue.strings (rotatedCol elements k)))) := by
  intro ks
  induction ks with
  | nil => intro _; rfl
  | cons k0 ks ih =>
    intro h
    simp only [buildResult]
    rw [if_neg (by simp [rotatedCol_length]), if_pos (h k0 (by simp)),
      ih (fun k hk => h k (by simp [hk]))]
    rfl

theorem chunks_nil (B : Nat) : chunks B ([] : List α) = [] := by
  rw [chunks]

theorem chunks_cons (B : Nat) (hB : B ≠ 0) (x : α) (xs : List α) :
    chunks B (x :: xs) = (x :: xs).take B :: chunks B ((x :: xs).drop B) := by
  rw [chunks]
  simp [hB]

theorem ceil_div_step (L B : Nat) (hB : 0 < B) (hL : 0 < L) :
    (L - B + B - 1) / B + 1 = (L + B - 1) / B := by
  have hnum : L - B + B - 1 = L - 1 ∨ (L - B + B - 1 = B - 1 ∧ L - 1 < B) := by
    rcases le_or_lt B L with h | h
    · left; omega
    · right; omega
  have hL1 : (L - B + B - 1) / B = (L - 1) / B := by
    rcases hnum with h | ⟨h, h2⟩
    · rw [h]
    · rw [h, Nat.div_eq_of_lt (by omega), Nat.div_eq_of_lt h2]
  rw [hL1, ← Nat.add_div_right (L - 1) hB]
  congr 1
  omega

theorem chunks_length (B : Nat) (hB : 0 < B) :
    ∀ (n : Nat) (xs : List α), xs.length ≤ n →
    (chunks B xs).length = (xs.length + B - 1) / B := by
  intro n
  induction n with
  | zero =>
    intro xs h
    have : xs = [] := List.eq_nil_of_length_eq_zero (by omega)
    subst this
    rw [chunks_nil]
    simp only [List.length_nil, Nat.zero_add]
    rw [Nat.div_eq_of_lt (by omega)]
  | succ n ih =>
    intro xs h
    cases xs with
    | nil =>
      rw [chunks_nil]
      simp only [List.length_nil, Nat.zero_add]
      rw [Nat.div_eq_of_lt (by omega)]
    | cons x xs =>
      rw [chunks_cons B (by omega)]
      have hdrop : ((x :: xs).drop B).length ≤ n := by
        simp only [List.length_drop, List.length_cons]
        have := h
        simp only [List.length_cons] at this
        omega
      rw [List.length_cons, ih _ hdrop]
      simp only [List.length_drop, List.length_cons]
      exact ceil_div_step (xs.length + 1) B hB (by omega)

theorem chunks_full_count (B : Nat) (hB : 0 < B) :
    ∀ (n : Nat) (xs : List α), xs.length ≤ n →
    ((chunks B xs).filter (fun c => c.length == B)).length = xs.length / B := by
  intro n
  induction n with
  | zero =>
    intro xs h
    have : xs = [] := List.eq_nil_of_length_eq_zero (by omega)
    subst this
    simp [chunks_nil]
  | succ n ih =>
    intro xs h
    cases xs with
    | nil => simp [chunks_nil]
    | cons x xs =>
      rw [chunks_cons B (by omega)]
      have hlen : (x :: xs).length = xs.length + 1 := List.length_cons x xs
      have hdrop : ((x :: xs).drop B).length ≤ n := by
        simp only [List.length_drop, List.length_cons]
        simp only [List.length_cons] at h
        omega
      rcases le_or_lt B (xs.length + 1) with hM | hM
      · have htake : ((x :: xs).take B).length = B := by
          simp only [List.length_take, List.length_cons]
          omega
        rw [List.filter_cons, if_pos (by simp [htake]), List.length_cons,
          ih _ hdrop]
        simp only [List.length_drop, List.length_cons]
        rw [Nat.div_eq_sub_div hB hM]
      · have htake : ((x :: xs).take B).length = xs.length + 1 := by
          simp only [List.length_take, List.length_cons]
          omega
        have hne : ¬(((x :: xs).take B).length == B) = true := by
          simp [htake]
          omega
        rw [List.filter_cons, if_neg hne, ih _ hdrop]
        simp only [List.length_drop, List.length_cons]
        have h1 : xs.length + 1 - B = 0 := by omega
        rw [h1]
        rw [Nat.div_eq_of_lt hM]
        simp

theorem chunks_ne_nil (B : Nat) (hB : B ≠ 0) (x : α) (xs : List α) :
    chunks B (x :: xs) ≠ [] := by
  rw [chunks_cons B hB]
  simp

theorem chunks_last_length (B : Nat) (hB : 0 < B) :
    ∀ (n : Nat) (xs : List α), xs.length ≤ n → xs ≠ [] →
    (chunks B xs).getLast?.map List.length =
      some (if xs.length % B = 0 then B else xs.length % B) := by
  intro n
  induction n with
  | zero =>
    intro xs h hne
    exact absurd (List.eq_nil_of_length_eq_zero (by omega)) hne
  | succ n ih =>
    intro xs h hne
    cases xs with
    | nil => exact absurd rfl hne
    | cons x xs =>
      rw [chunks_cons B (by omega)]
      simp only [List.length_cons] at h
      rcases le_or_lt (xs.length + 1) B with hM | hM
      · have hdropnil : (x :: xs).drop B = [] := by
          apply List.eq_nil_of_length_eq_zero
          simp only [List.length_drop, List.length_cons]
          omega
        rw [hdropnil, chunks_nil]
        have htake : ((x :: xs).take B).length = xs.length + 1 := by
          simp only [List.length_take, List.length_cons]
          omega
        simp only [List.getLast?_singleton, Option.map_some', htake,
          List.length_cons]
        congr 1
        rcases Nat.lt_or_ge (xs.length + 1) B with hlt | hge
        · rw [if_neg (by rw [Nat.mod_eq_of_lt hlt]; omega),
            Nat.mod_eq_of_lt hlt]
        · have hEq : xs.length + 1 = B := by omega
          rw [if_pos (by rw [hEq]; simp), hEq]
      · have hdrop : ((x :: xs).drop B).length ≤ n := by
          simp only [List.length_drop, List.length_cons]
          omega
        have hdropne : (x :: xs).drop B ≠ [] := by
          intro hcontra
          have := congrArg List.length hcontra
          simp only [List.length_drop, List.length_cons, List.length_nil] at this
          omega
        have hrec := ih _ hdrop hdropne
        cases hcs : chunks B ((x :: xs).drop B) with
        | nil =>
          cases hd : (x :: xs).drop B with
          | nil => exact absurd hd hdropne
          | cons y ys => exact absurd (hd ▸ hcs) (chunks_ne_nil B (by omega) y ys)
        | cons c cs =>
          rw [hcs] at hrec
          rw [List.getLast?_cons_cons, hrec]
          congr 1
          have hmod : (((x :: xs).drop B).length) % B = ((x :: xs).length) % B := by
            simp only [List.length_drop]
            exact (Nat.mod_eq_sub_mod (by simp only [List.length_cons]; omega)).symm
          rw [hmod]

theorem contains_of_mem {l : List String} {k : String} (h : k ∈ l) :
    l.contains k = true :=
  List.elem_iff.mpr h

/-- Claim C2, counterexample. The claim states that each consumed record's
resources are released exactly once even when the window's concatenation
fails. On the window `[{d:[1,2]}, {d:[3]}]` the concatenation throws the
shape error, and since `elements.forEach(dispose)` (source line 93) runs
after the throwing loop with no `finally`, the disposal list is empty
although the window held 2 records — no record is released on the failure
path, refuting the claim. -/
theorem makeDatasetBatch_no_dispose_on_error :
    (makeDatasetBatch [[("d", ElementValue.arr [1, 2])],
        [("d", ElementValue.arr [3])]]).1 = .error .shapeMismatch ∧
    (makeDatasetBatch [[("d", ElementValue.arr [1, 2])],
        [("d", ElementValue.arr [3])]]).2 = [] ∧
    ([[("d", ElementValue.arr [1, 2])],
        [("d", ElementValue.arr [3])]] : List DatasetElement).length = 2 :=
  ⟨rfl, rfl, rfl⟩

/-- Claim C2, amended. When the window's transposition and concatenation
succeed, every consumed record is disposed exactly once (each record index
appears once in the disposal list); when they fail with any error, no
record is disposed — the error propagates with the disposal step skipped
entirely. -/
theorem makeDatasetBatch_dispose (elements : List DatasetElement) :
    ((makeDatasetBatch elements).1.isOk = true →
      ∀ i : Nat, i < elements.length → (makeDatasetBatch elements).2.count i = 1) ∧
    ((makeDatasetBatch elements).1.isOk = false →
      (makeDatasetBatch elements).2 = []) := by
  unfold makeDatasetBatch
  cases h : makeDatasetBatchCore elements with
  | ok r =>
    constructor
    · intro _ i hi
      exact List.count_eq_one_of_mem (List.nodup_range _) (List.mem_range.mpr hi)
    · intro hcontra
      simp [Except.isOk, Except.toBool] at hcontra
  | error e =>
    constructor
    · intro hcontra
      simp [Except.isOk, Except.toBool] at hcontra
    · intro _
      rfl

theorem makeDatasetBatch_dispose_witness :
    (makeDatasetBatch [[("p", ElementValue.num 3)],
        [("p", ElementValue.num 4)]]).1.isOk = true ∧
    (0 : Nat) < ([[("p", ElementValue.num 3)],
        [("p", ElementValue.num 4)]] : List DatasetElement).length ∧
    (makeDatasetBatch [[("p", ElementValue.num 3)],
        [("p", ElementValue.num 4)]]).2.count 0 = 1 :=
  ⟨rfl, by decide,
    (makeDatasetBatch_dispose [[("p", ElementValue.num 3)],
      [("p", ElementValue.num 4)]]).1 rfl 0 (by decide)⟩

/-- Claim C3, counterexample. The claim states that a window whose later
record lacks a templated key fails with a `SchemaMismatch` error and
produces no batch. On the window `[{a:1}, {}]`, whose second record lacks
the templated key `a`, the code instead succeeds: reading the missing key
yields `undefined`, which is written into the `Float32Array` as NaN, and a
batch is produced — no schema error exists anywhere in the code. -/
theorem makeDatasetBatch_missing_key_succeeds :
    makeDatasetBatchCore [[("a", ElementValue.num 1)], ([] : DatasetElement)] =
      .ok [("a", BatchValue.tensor [2] [JSNum.num 1, JSNum.nan])] :=
  rfl

/-- Claim C3, amended. A later record lacking a templated key does not
trigger any schema error: the missing field reads as `undefined` and flows
into the batch like any other value (NaN in a numeric buffer, the raw
`undefined` in a passed-through text column). Formally, the code behaves
on any window exactly as it does when every missing templated key is
backfilled with `undefined`. -/
theorem makeDatasetBatch_missing_keys_as_undefined (elements : List DatasetElement) :
    makeDatasetBatchCore
        (elements.map (fillMissing (keysOf (elements.headD [])))) =
      makeDatasetBatchCore elements := by
  cases elements with
  | nil => rfl
  | cons e0 rest =>
    simp only [List.map_cons, List.headD]
    rw [fillMissing_keysOf_self]
    simp only [makeDatasetBatchCore]
    apply buildResult_congr
    · simp
    · intro k _
      unfold rotatedCol
      simp only [List.map_cons, List.map_map]
      congr 1
      apply List.map_congr_left
      intro e _
      simp only [Function.comp_apply]
      exact getKey_fillMissing _ _ _

/-- Claim C5, counterexample. The claim states that when a field's first
value is Text, any later numeric value for the field makes the window fail
with a `TypeMismatch` error. On the window `[{a:"x"}, {a:5}]` the code
instead succeeds: the `typeof rotated[key][0] === 'string'` test (source
line 87) inspects only the first value and passes the whole column through
unvalidated, so the number 5 ends up inside the nominally-string column —
no type error exists anywhere in the code. -/
theorem makeDatasetBatch_mixed_text_no_error :
    makeDatasetBatchCore [[("a", ElementValue.str "x")],
        [("a", ElementValue.num 5)]] =
      .ok [("a", BatchValue.strings [ElementValue.str "x", ElementValue.num 5])] :=
  rfl

/-- Claim C5, amended. When the first value of every templated field is
Text, the window succeeds and each field's batch value is its rotated
column passed through as-is — the ordered sequence of the raw values with
no concatenation and no validation of the later values (so when all
values are Text, it is exactly the ordered sequence of the strings; mixed
later values are passed through rather than rejected). -/
theorem makeDatasetBatch_text_passthrough (e0 : DatasetElement)
    (rest : List DatasetElement)
    (h : ∀ k ∈ keysOf e0, isStr (getKey e0 k) = true) :
    makeDatasetBatchCore (e0 :: rest) =
      .ok ((keysOf e0).map
        (fun k => (k, BatchValue.strings (rotatedCol (e0 :: rest) k)))) := by
  unfold makeDatasetBatchCore
  apply buildResult_string_cols
  intro k hk
  have hhead : (rotatedCol (e0 :: rest) k).headD .undefined = getKey e0 k := by
    simp [rotatedCol]
  rw [hhead]
  exact h k hk

theorem makeDatasetBatch_text_passthrough_witness :
    (∀ k ∈ keysOf [("b", ElementValue.str "u")],
      isStr (getKey [("b", ElementValue.str "u")] k) = true) ∧
    makeDatasetBatchCore [[("b", ElementValue.str "u")],
        [("b", ElementValue.str "v")]] =
      .ok ((keysOf [("b", ElementValue.str "u")]).map
        (fun k => (k, BatchValue.strings
          (rotatedCol [[("b", ElementValue.str "u")],
            [("b", ElementValue.str "v")]] k)))) :=
  ⟨by decide,
    makeDatasetBatch_text_passthrough [("b", ElementValue.str "u")]
      [[("b", ElementValue.str "v")]] (by decide)⟩

/-- Claim C7, counterexample. The claim states that for a numeric array the
adapter returns the flat buffer as a copy rather than an alias of the
source collection. At the reference level the array branch of the source
(line 128) is `return [[array.length], array]`: on a store holding one
array `[7, 8]` at reference 0, the adapter returns reference 0 itself as
the buffer and allocates nothing — the buffer is an alias of the source
collection, not a copy. -/
theorem shapeAndValues_array_aliases :
    shapeAndValuesRef [[7, 8]] (HValue.harr 0) = ([[7, 8]], [2], 0) :=
  rfl

/-- Claim C7, amended. The adapter returns: for a scalar `x`, shape `[]`
and the fresh flat buffer `[x]`; for a numeric array `xs`, shape
`[len xs]` and the buffer `xs` itself — value-equal to the source but
returned as an alias of the source collection, with no allocation and no
copy; for a tensor with shape `s` and flat buffer `d`, shape `s` and
buffer `d` unchanged; with no side effects beyond reads (the function is
pure and, except for the scalar allocation, leaves the store untouched). -/
theorem shapeAndValues_adapter (x : Int) (xs : List Int) (s : List Nat)
    (d : List Int) (st : List (List Int)) (r : Nat) :
    shapeAndValues (.num x) = ([], [.num x]) ∧
    shapeAndValues (.arr xs) = ([xs.length], xs.map ElementValue.num) ∧
    shapeAndValues (.tensor s d) = (s, d.map ElementValue.num) ∧
    shapeAndValuesRef st (.harr r) = (st, [(st.getD r []).length], r) ∧
    shapeAndValuesRef st (.hnum x) = (st ++ [[x]], [], st.length) :=
  ⟨rfl, rfl, rfl, rfl, rfl⟩

/-- Claim C8, counterexample. The claim states that constructing a
batching stage with a non-positive batchSize fails fast at construction
with an `InvalidConfiguration` error. The constructor (source lines 41–43)
merely stores its arguments and contains no validation: construction with
batchSize 0, or a negative batchSize, succeeds and returns the dataset
object — nothing fails until (at the earliest) the first pull. -/
theorem batchDataset_accepts_nonpositive :
    BatchDataset.make 0 true = .ok ⟨0, true⟩ ∧
    BatchDataset.make (-5) false = .ok ⟨-5, false⟩ ∧
    BatchDataset.makeDefault 0 = .ok ⟨0, true⟩ :=
  ⟨rfl, rfl, rfl⟩

/-- Claim C8, amended. Construction never validates batchSize: for every
batchSize (positive or not) construction succeeds and stores the given
configuration, and `smallLastBatch` defaults to true when omitted. -/
theorem batchDataset_construction (b : Int) (s : Bool) :
    BatchDataset.make b s = .ok ⟨b, s⟩ ∧
    (BatchDataset.make b s).isOk = true ∧
    BatchDataset.makeDefault b = .ok ⟨b, true⟩ :=
  ⟨rfl, rfl, rfl⟩

/-- Claim C9. For every non-empty window, the rotated column of every key
has length exactly the number of records (the double forEach pushes one
value per record per key), so the sanity-check branch
`Batching failed to get a '<key>' value for each element` (source lines
83–86) is unreachable: the batch assembly never returns that error, for
any key. -/
theorem sanity_check_unreachable (elements : List DatasetElement)
    (hne : elements ≠ []) :
    (∀ k, (rotatedCol elements k).length = elements.length) ∧
    (∀ k, makeDatasetBatchCore elements ≠ .error (.batchingFailed k)) := by
  refine ⟨fun k => rotatedCol_length elements k, fun k => ?_⟩
  cases elements with
  | nil => exact absurd rfl hne
  | cons e0 rest => exact buildResult_ne_batchingFailed _ _ _

theorem sanity_check_unreachable_witness :
    (rotatedCol [[("k", ElementValue.num 7)]] "k").length =
      ([[("k", ElementValue.num 7)]] : List DatasetElement).length ∧
    makeDatasetBatchCore [[("k", ElementValue.num 7)]] ≠
      .error (.batchingFailed "k") :=
  ⟨(sanity_check_unreachable [[("k", ElementValue.num 7)]] (by decide)).1 "k",
    (sanity_check_unreachable [[("k", ElementValue.num 7)]] (by decide)).2 "k"⟩

/-- Claim C1. Modelled from the spec (the `DataStream.batch` combinator is
outside the provided source): for an upstream record sequence of length L
and a configured batchSize B > 0, the stage emits exactly
ceil(L/B) = (L + B - 1) / B batches when smallLastBatch is true — the last
batch holding L mod B records, or B records when L mod B = 0 and L > 0 —
and exactly floor(L/B) = L / B batches when smallLastBatch is false, every
emitted batch then holding exactly B records (the shorter remainder window
is dropped, not emitted). -/
theorem batching_stage_counts (records : List DatasetElement) (B : Nat)
    (hB : 0 < B) :
    (getStreamModel B true records).length = (records.length + B - 1) / B ∧
    (getStreamModel B false records).length = records.length / B ∧
    (records ≠ [] →
      (batchWindows B true records).getLast?.map List.length =
        some (if records.length % B = 0 then B else records.length % B)) ∧
    (∀ w ∈ batchWindows B false records, w.length = B) := by
  refine ⟨?_, ?_, ?_, ?_⟩
  · simp only [getStreamModel, batchWindows, if_true, List.length_map]
    exact chunks_length B hB records.length records (le_refl _)
  · simp only [getStreamModel, batchWindows, Bool.false_eq_true, if_false,
      List.length_map]
    exact chunks_full_count B hB records.length records (le_refl _)
  · intro hne
    simp only [batchWindows, if_true]
    exact chunks_last_length B hB records.length records (le_refl _) hne
  · intro w hw
    simp only [batchWindows, Bool.false_eq_true, if_false] at hw
    have := (List.mem_filter.mp hw).2
    simpa using this

theorem batching_stage_counts_witness :
    (getStreamModel 2 true [[("a", ElementValue.num 1)],
        [("a", ElementValue.num 2)], [("a", ElementValue.num 3)]]).length =
      (([[("a", ElementValue.num 1)], [("a", ElementValue.num 2)],
        [("a", ElementValue.num 3)]] : List DatasetElement).length + 2 - 1) / 2 ∧
    (getStreamModel 2 false [[("a", ElementValue.num 1)],
        [("a", ElementValue.num 2)], [("a", ElementValue.num 3)]]).length =
      ([[("a", ElementValue.num 1)], [("a", ElementValue.num 2)],
        [("a", ElementValue.num 3)]] : List DatasetElement).length / 2 ∧
    (batchWindows 2 true [[("a", ElementValue.num 1)],
        [("a", ElementValue.num 2)],
        [("a", ElementValue.num 3)]]).getLast?.map List.length =
      some (if ([[("a", ElementValue.num 1)], [("a", ElementValue.num 2)],
        [("a", ElementValue.num 3)]] : List DatasetElement).length % 2 = 0
        then 2
        else ([[("a", ElementValue.num 1)], [("a", ElementValue.num 2)],
          [("a", ElementValue.num 3)]] : List DatasetElement).length % 2) :=
  ⟨(batching_stage_counts _ 2 (by decide)).1,
    (batching_stage_counts _ 2 (by decide)).2.1,
    (batching_stage_counts [[("a", ElementValue.num 1)],
        [("a", ElementValue.num 2)], [("a", ElementValue.num 3)]] 2
      (by decide)).2.2.1 (by decide)⟩

/-- Claim C4. For a window of values for one field (with each tensor's
backing buffer matching its shape, an invariant of the tensor runtime):
if any value's shape differs from the element shape of the first value,
`batchConcat` fails with the shape-mismatch error; otherwise it succeeds
and the output buffer is the in-order concatenation of every value's flat
values, so record i's flat values sit at offset i × product(elementShape)
(the segment of that length at that offset equals record i's converted
flat values). -/
theorem batchConcat_shape_validation (arrays : List ElementValue)
    (hwf : ∀ a ∈ arrays,
      (shapeAndValues a).2.length = ((shapeAndValues a).1).prod) :
    ((∃ a ∈ arrays,
        (shapeAndValues a).1 ≠ (shapeAndValues (arrays.headD .undefined)).1) →
      batchConcat arrays = .error .shapeMismatch) ∧
    ((∀ a ∈ arrays,
        (shapeAndValues a).1 = (shapeAndValues (arrays.headD .undefined)).1) →
      ∀ (i : Nat) (hi : i < arrays.length),
      batchConcat arrays =
        .ok (.tensor (arrays.length :: (shapeAndValues (arrays.headD .undefined)).1)
          ((arrays.map (fun a => (shapeAndValues a).2.map toJSNum)).flatten)) ∧
      ((arrays.map (fun a => (shapeAndValues a).2.map toJSNum)).flatten.drop
          (i * ((shapeAndValues (arrays.headD .undefined)).1).prod)).take
          ((shapeAndValues (arrays.headD .undefined)).1).prod =
        ((shapeAndValues (arrays.get ⟨i, hi⟩)).2).map toJSNum) := by
  constructor
  · intro h
    simp only [batchConcat]
    rw [batchConcatLoop_mismatch _ _ _ _ h]
    rfl
  · intro h i hi
    have hne : arrays ≠ [] := by
      intro hcontra
      subst hcontra
      simp at hi
    have hwf2 : ∀ a ∈ arrays, (shapeAndValues a).2.length =
        ((shapeAndValues (arrays.headD .undefined)).1).prod := by
      intro a ha
      rw [hwf a ha, h a ha]
    refine ⟨batchConcat_uniform arrays _ hne h hwf2, ?_⟩
    have hmap : ∀ x ∈ arrays.map (fun a => (shapeAndValues a).2.map toJSNum),
        x.length = ((shapeAndValues (arrays.headD .undefined)).1).prod := by
      intro x hx
      rcases List.mem_map.mp hx with ⟨a, ha, rfl⟩
      rw [List.length_map]
      exact hwf2 a ha
    have hslice := flatten_slice_eq _ _ hmap i (by simpa using hi)
    rw [hslice, List.get_map]

theorem batchConcat_shape_validation_witness :
    (∀ a ∈ [ElementValue.arr [5, 6], ElementValue.arr [7]],
      (shapeAndValues a).2.length = ((shapeAndValues a).1).prod) ∧
    batchConcat [ElementValue.arr [5, 6], ElementValue.arr [7]] =
      .error .shapeMismatch :=
  ⟨by decide,
    (batchConcat_shape_validation [ElementValue.arr [5, 6],
        ElementValue.arr [7]] (by decide)).1
      ⟨ElementValue.arr [7], by decide, by decide⟩⟩

theorem flatNums_eq (a : ElementValue) (h : isNumeric a = true) :
    (shapeAndValues a).2.map toJSNum = flatNums a := by
  cases a with
  | num x => rfl
  | arr xs => simp [shapeAndValues, flatNums, List.map_map, toJSNum,
      Function.comp_def]
  | tensor s d => simp [shapeAndValues, flatNums, List.map_map, toJSNum,
      Function.comp_def]
  | str s => simp [isNumeric] at h
  | undefined => simp [isNumeric] at h

/-- Claim C6. For a window of B numeric values of one field, all of the
same shape es (with each tensor's backing buffer matching its shape), the
emitted batch value is a tensor of shape [B, ...es] whose flat buffer is
the in-order concatenation of the records' flat numeric values; splitting
that buffer back into B consecutive slices of length product(es)
reproduces each record's original flat numeric values exactly (the model's
integer domain is preserved by the float32 writes), so record order is
preserved and the concatenation round-trips. -/
theorem batchConcat_round_trip (arrays : List ElementValue) (es : List Nat)
    (hne : arrays ≠ [])
    (hnum : ∀ a ∈ arrays, isNumeric a = true)
    (hsh : ∀ a ∈ arrays, (shapeAndValues a).1 = es)
    (hwf : ∀ a ∈ arrays, (shapeAndValues a).2.length = es.prod) :
    batchConcat arrays =
      .ok (.tensor (arrays.length :: es) ((arrays.map flatNums).flatten)) ∧
    ∀ (i : Nat) (hi : i < arrays.length),
      (((arrays.map flatNums).flatten).drop (i * es.prod)).take es.prod =
        flatNums (arrays.get ⟨i, hi⟩) := by
  have hmapeq : arrays.map (fun a => (shapeAndValues a).2.map toJSNum) =
      arrays.map flatNums :=
    List.map_congr_left (fun a ha => flatNums_eq a (hnum a ha))
  constructor
  · rw [← hmapeq]
    exact batchConcat_uniform arrays es hne hsh hwf
  · intro i hi
    have hlen : ∀ x ∈ arrays.map flatNums, x.length = es.prod := by
      intro x hx
      rcases List.mem_map.mp hx with ⟨a, ha, rfl⟩
      rw [← flatNums_eq a (hnum a ha), List.length_map]
      exact hwf a ha
    have hslice := flatten_slice_eq _ _ hlen i (by simpa using hi)
    rw [hslice, List.get_map]

theorem batchConcat_round_trip_witness :
    batchConcat [ElementValue.tensor [2] [1, 2], ElementValue.tensor [2] [3, 4]] =
      .ok (.tensor
        (([ElementValue.tensor [2] [1, 2],
          ElementValue.tensor [2] [3, 4]] : List ElementValue).length :: [2])
        (([ElementValue.tensor [2] [1, 2],
          ElementValue.tensor [2] [3, 4]] : List ElementValue).map
            flatNums).flatten) ∧
    ((([ElementValue.tensor [2] [1, 2],
        ElementValue.tensor [2] [3, 4]] : List ElementValue).map
          flatNums).flatten.drop (1 * ([2] : List Nat).prod)).take
        ([2] : List Nat).prod =
      flatNums (([ElementValue.tensor [2] [1, 2],
        ElementValue.tensor [2] [3, 4]] : List ElementValue).get
          ⟨1, by decide⟩) :=
  ⟨(batchConcat_round_trip [ElementValue.tensor [2] [1, 2],
      ElementValue.tensor [2] [3, 4]] [2] (by decide) (by decide) (by decide)
      (by decide)).1,
    (batchConcat_round_trip [ElementValue.tensor [2] [1, 2],
      ElementValue.tensor [2] [3, 4]] [2] (by decide) (by decide) (by decide)
      (by decide)).2 1 (by decide)⟩

/-- Claim C10. The key set of a successfully produced batch equals exactly
the key set of the first (template) record, in template order; and a field
present only in later records is silently omitted without error — the
batch assembly behaves on any window exactly as it does when every
non-templated field is removed from the later records. -/
theorem batch_keys_match_template (elements : List DatasetElement) :
    (∀ r : DatasetBatch, makeDatasetBatchCore elements = .ok r →
      r.map Prod.fst = keysOf (elements.headD [])) ∧
    makeDatasetBatchCore
        (elements.map (restrictToTemplate (keysOf (elements.headD [])))) =
      makeDatasetBatchCore elements := by
  constructor
  · intro r h
    cases elements with
    | nil => simp [makeDatasetBatchCore] at h
    | cons e0 rest =>
      simp only [makeDatasetBatchCore] at h
      simp only [List.headD]
      exact buildResult_keys _ _ _ h
  · cases elements with
    | nil => rfl
    | cons e0 rest =>
      simp only [List.map_cons, List.headD]
      rw [restrictToTemplate_keysOf_self]
      simp only [makeDatasetBatchCore]
      apply buildResult_congr
      · simp
      · intro k hk
        unfold rotatedCol
        simp only [List.map_cons, List.map_map]
        congr 1
        apply List.map_congr_left
        intro e _
        simp only [Function.comp_apply]
        exact getKey_restrictToTemplate _ _ (contains_of_mem hk) e

theorem batch_keys_match_template_witness :
    makeDatasetBatchCore [[("a", ElementValue.num 1)],
        [("a", ElementValue.num 2), ("c", ElementValue.num 9)]] =
      .ok [("a", BatchValue.tensor [2] [JSNum.num 1, JSNum.num 2])] ∧
    ([("a", BatchValue.tensor [2] [JSNum.num 1, JSNum.num 2])] :
        DatasetBatch).map Prod.fst =
      keysOf (([[("a", ElementValue.num 1)],
        [("a", ElementValue.num 2), ("c", ElementValue.num 9)]] :
          List DatasetElement).headD []) :=
  ⟨rfl,
    (batch_keys_match_template [[("a", ElementValue.num 1)],
        [("a", ElementValue.num 2), ("c", ElementValue.num 9)]]).1
      [("a", BatchValue.tensor [2] [JSNum.num 1, JSNum.num 2])] rfl⟩

end BatchDatasetModel
